import Mathlib

/-!
Verification of the WebInsights Assistant analytics pipeline.

Shallow embedding of the pipeline's analytical stages:
* `data_processing_agent.py` (`DataProcessingAgent._process_data`,
  `_simplify_page_path`): trend detection, percentage-share normalization,
  dominant-source detection, anomaly detection, page-name simplification;
* `insight_generation_agent.py` (`InsightGenerationAgent.process`,
  `_generate_insights`, `_time_to_seconds`): rule-based insight synthesis;
* `visualization_agent.py` (traffic-source chart input selection);
* `webinsights_integration.py` (`_execute_workflow`): key-level model of the
  state threaded through the stages.

Modelling conventions:
* Python numbers are modelled as exact rationals (`ℚ`); `round(x, 2)` is
  modelled as round-half-to-even at two decimals (`round2`), which is Python's
  rounding rule on exact values.
* Python dicts are modelled as association lists in insertion order (Python
  dicts preserve insertion order); `dictSet` models `d[k] = v` (replace in
  place if the key exists, append otherwise).
* Python strings are modelled as `List Char` (`String` at structure
  boundaries); the case functions model `str.capitalize` on ASCII.
* The one fallible arithmetic site of the processing stage (the
  `(value - avg) / avg` deviation divide, `data_processing_agent.py` line 172)
  is modelled in `Except`: `ZeroDivisionError` becomes `Except.error`.  Every
  other division in the stage has a syntactic guard in the source
  (`if total > 0`, `if avg_first > 0`) or a length lower bound making the
  denominator a positive list length, so it is modelled as exact division.
-/

set_option maxRecDepth 8000

deriving instance DecidableEq for Except

section WebInsights

attribute [local semireducible] Rat.mul Rat.inv Rat.add Rat.sub

/-! ## Python `round(x, 2)` -/

/-- Python's `round` on an exact value: round half to even (banker's
rounding) to the nearest integer. -/
def roundHalfEven (q : ℚ) : ℤ :=
  if q - Rat.floor q < 1/2 then Rat.floor q
  else if 1/2 < q - Rat.floor q then Rat.floor q + 1
  else if Rat.floor q % 2 = 0 then Rat.floor q else Rat.floor q + 1

/-- Python `round(x, 2)`: round half to even at the second decimal. -/
def round2 (q : ℚ) : ℚ :=
  (roundHalfEven (q * 100) : ℚ) / 100

/-! ## Page-name simplification (`_simplify_page_path`)

Characters are ASCII-modelled: `pyToUpper` / `pyToLower` are
`str.capitalize`'s per-character case maps restricted to ASCII letters, and
`isWs` is the ASCII whitespace set that `str.split()` (no argument) splits on.
-/

/-- ASCII uppercase map, as used by Python `str.capitalize` on the first
character. -/
def pyToUpper (c : Char) : Char :=
  if 97 ≤ c.toNat ∧ c.toNat ≤ 122 then Char.ofNat (c.toNat - 32) else c

/-- ASCII lowercase map, as used by Python `str.capitalize` on the remaining
characters. -/
def pyToLower (c : Char) : Char :=
  if 65 ≤ c.toNat ∧ c.toNat ≤ 90 then Char.ofNat (c.toNat + 32) else c

/-- ASCII whitespace codes (the characters `str.split()` with no argument
splits on). -/
def isWsN (n : Nat) : Bool :=
  n == 32 || n == 9 || n == 10 || n == 13 || n == 11 || n == 12

/-- ASCII whitespace test on characters. -/
def isWs (c : Char) : Bool := isWsN c.toNat

/-- Python `path.strip("/")`: remove leading and trailing slash characters. -/
def stripSlashes (s : List Char) : List Char :=
  ((s.dropWhile (fun c => c = '/')).reverse.dropWhile (fun c => c = '/')).reverse

/-- Python `s.replace("-", " ").replace("_", " ")`: each hyphen or underscore
becomes a space. -/
def replaceDashes (s : List Char) : List Char :=
  s.map (fun c => if c = '-' ∨ c = '_' then ' ' else c)

/-- Accumulator version of Python `s.split()`: split on whitespace runs,
discarding empty pieces.  `acc` holds the current word, reversed. -/
def splitWsAux : List Char → List Char → List (List Char)
  | [], acc => if acc = [] then [] else [acc.reverse]
  | c :: cs, acc =>
    if isWs c then
      (if acc = [] then splitWsAux cs [] else acc.reverse :: splitWsAux cs [])
    else splitWsAux cs (c :: acc)

/-- Python `s.split()` with no argument. -/
def splitWs (s : List Char) : List (List Char) := splitWsAux s []

/-- Python `word.capitalize()`: first character uppercased, the rest
lowercased (ASCII model). -/
def pyCapitalize : List Char → List Char
  | [] => []
  | c :: cs => pyToUpper c :: cs.map pyToLower

/-- Python `" ".join(words)`. -/
def joinSpace : List (List Char) → List Char
  | [] => []
  | [w] => w
  | w :: ws => w ++ ' ' :: joinSpace ws

/-- DataProcessingAgent._simplify_page_path: `/` maps to `"Home Page"`;
otherwise strip leading/trailing slashes, replace `-` and `_` with spaces,
split on whitespace, capitalize each word, join with single spaces. -/
def simplifyPagePath (path : List Char) : List Char :=
  if path = ['/'] then "Home Page".toList
  else joinSpace ((splitWs (replaceDashes (stripSlashes path))).map pyCapitalize)

/-- String-level wrapper of `simplifyPagePath`, used where the pipeline
stores page names. -/
def simplifyPath (s : String) : String :=
  String.mk (simplifyPagePath s.toList)

/-! ## Processing stage data model (`DataProcessingAgent._process_data`)

Python dicts are association lists in insertion order.  Keys whose presence
the source tests with `in` are `Option` fields; values the source only reads
through `.get(key, default)` are plain fields carrying the defaulted value.
The always-empty `confronti` dict carries no data and is tracked only in the
key-level model `processedKeys`.
-/

/-- Entry of `processed_data["tendenze"]["visitatori"]`. -/
structure TrendEntry where
  direzione : String
  percentuale : ℚ
deriving DecidableEq

/-- Entry of the `processed_data["anomalie"]` list. -/
structure Anomalia where
  tipo : String
  data : String
  valore : ℚ
  differenza_percentuale : ℚ
deriving DecidableEq

/-- Value stored in the `fonti_traffico` dict: a per-source entry
(`valore`/`percentuale`) or the `principale` metadata entry
(`nome`/`percentuale`) — the Python dict is heterogeneous. -/
inductive FonteVal where
  | entry (valore : ℚ) (percentuale : ℚ)
  | principaleEntry (nome : String) (percentuale : ℚ)
deriving DecidableEq

/-- Python `v.get("percentuale", 0)` on a `fonti_traffico` value (both shapes
carry the key). -/
def FonteVal.percent : FonteVal → ℚ
  | .entry _ p => p
  | .principaleEntry _ p => p

/-- Python `v.get("nome", "")` on a `fonti_traffico` value. -/
def FonteVal.nomeGet : FonteVal → String
  | .entry _ _ => ""
  | .principaleEntry n _ => n

/-- Trend computation, `data_processing_agent.py` lines 93-107: with at least
two points, split at `len // 2`, compare the two half means when the first
is positive. -/
def computeTrend (daily : List ℚ) : Option TrendEntry :=
  if daily.length ≥ 2 then
    let firstHalf := daily.take (daily.length / 2)
    let secondHalf := daily.drop (daily.length / 2)
    let avgFirst := firstHalf.sum / (firstHalf.length : ℚ)
    let avgSecond := secondHalf.sum / (secondHalf.length : ℚ)
    if avgFirst > 0 then
      let growthRate := ((avgSecond - avgFirst) / avgFirst) * 100
      some { direzione := if growthRate > 0 then "crescita" else "decrescita",
             percentuale := round2 |growthRate| }
    else none
  else none

/-- Percentage normalization, `data_processing_agent.py` lines 110-120 and
131-141 (the traffic-source and device dict comprehensions share this
formula): each key maps to its raw value and
`round((value / total) * 100, 2) if total > 0 else 0`. -/
def normalizeShares (m : List (String × ℚ)) : List (String × ℚ × ℚ) :=
  let total := (m.map (fun kv => kv.2)).sum
  m.map (fun kv => (kv.1, kv.2, if total > 0 then round2 ((kv.2 / total) * 100) else 0))

/-- Python `max(items, key=lambda x: x[1])`: the first item with the maximal
second component (`max` keeps the current best on ties). -/
def pyMaxBySnd : List (String × ℚ) → Option (String × ℚ)
  | [] => none
  | x :: xs => some (xs.foldl (fun acc y => if y.2 > acc.2 then y else acc) x)

/-- Python `d[k] = v` on an insertion-ordered dict: replace in place when the
key exists, append otherwise. -/
def dictSet {α : Type} (l : List (String × α)) (k : String) (v : α) :
    List (String × α) :=
  if l.any (fun kv => kv.1 = k) then
    l.map (fun kv => if kv.1 = k then (k, v) else kv)
  else l ++ [(k, v)]

/-- Python `k in d` / `d.get(k)` on an insertion-ordered dict. -/
def dictGet {α : Type} (l : List (String × α)) (k : String) : Option α :=
  (l.find? (fun kv => kv.1 = k)).map (fun kv => kv.2)

/-- Construction of `processed_data["fonti_traffico"]`,
`data_processing_agent.py` lines 110-128: the normalized per-source entries,
then (for a non-empty mapping) the `principale` metadata entry stored under
the same dict. -/
def fontiTraffico (sources : List (String × ℚ)) : List (String × FonteVal) :=
  let total := (sources.map (fun kv => kv.2)).sum
  let base := (normalizeShares sources).map
    (fun kvp => (kvp.1, FonteVal.entry kvp.2.1 kvp.2.2))
  match pyMaxBySnd sources with
  | none => base
  | some m => dictSet base "principale"
      (FonteVal.principaleEntry m.1 (if total > 0 then round2 ((m.2 / total) * 100) else 0))

/-- Anomaly scan loop, `data_processing_agent.py` lines 165-173.  The source
compares `abs(value - avg) > 2 * std_dev` with `std_dev = variance ** 0.5`;
this is embedded squared as `(value - avg)^2 > 4 * variance`, equivalent
since both sides are nonnegative (`anomalyTest_iff`).  The deviation divide
`(value - avg) / avg` raises `ZeroDivisionError` when `avg = 0`, modelled as
`Except.error` (aborting the whole scan, as the Python exception does). -/
def detectAnomaliesGo (avg variance : ℚ) :
    List (String × ℚ) → Except String (List Anomalia)
  | [] => .ok []
  | (d, v) :: rest =>
    if (v - avg)^2 > 4 * variance then
      if avg = 0 then .error "ZeroDivisionError"
      else
        match detectAnomaliesGo avg variance rest with
        | .error e => .error e
        | .ok tail =>
          .ok (Anomalia.mk (if v > avg then "picco" else "calo") d v
            (round2 (|(v - avg) / avg| * 100)) :: tail)
    else detectAnomaliesGo avg variance rest

/-- Anomaly detection, `data_processing_agent.py` lines 156-173: requires at
least 3 daily points; population mean and variance of the values. -/
def detectAnomalies (daily : List (String × ℚ)) : Except String (List Anomalia) :=
  let values := daily.map (fun kv => kv.2)
  if values.length ≥ 3 then
    let avg := values.sum / (values.length : ℚ)
    let variance := ((values.map (fun x => (x - avg)^2)).sum) / (values.length : ℚ)
    detectAnomaliesGo avg variance daily
  else .ok []

/-- Daily visitors block of the raw bundle (`metrics["visitors"]`). -/
structure VisitorsBlock where
  total : ℚ
  daily : Option (List (String × ℚ))
deriving DecidableEq

/-- Raw `metrics` block.  `pageviews_total` and `pages_per_session` carry the
values of `metrics.get("pageviews", ...).get("total", 0)` and
`metrics.get("pages_per_session", 0)` (read only through defaults). -/
structure MetricsBlock where
  visitors : Option VisitorsBlock
  pageviews_total : ℚ
  pages_per_session : ℚ
deriving DecidableEq

/-- Entry of the raw `top_pages` list. -/
structure RawPage where
  path : String
  pageviews : ℚ
  avg_time : String
deriving DecidableEq

/-- The raw metrics bundle handed to the processing stage. -/
structure RawData where
  report_name : Option String
  start_date : Option String
  end_date : Option String
  metrics : Option MetricsBlock
  traffic_sources : Option (List (String × ℚ))
  top_pages : Option (List RawPage)
  devices : Option (List (String × ℚ))
deriving DecidableEq

/-- Value of `processed_data["metriche_principali"]` once filled. -/
structure MetricheP where
  visitatori_totali : ℚ
  visualizzazioni_pagina_totali : ℚ
  pagine_per_sessione : ℚ
deriving DecidableEq

/-- Entry of `processed_data["pagine_principali"]`. -/
structure PaginaP where
  nome : String
  percorso : String
  visualizzazioni : ℚ
  tempo_medio : String
deriving DecidableEq

/-- Value of `processed_data["report_info"]`. -/
structure ReportInfo where
  title : String
  periodo_start : Option String
  periodo_end : Option String
deriving DecidableEq

/-- The processed metrics object.  `metriche_principali = none` models the
initial empty dict (kept when the raw bundle has no `metrics` key);
`tendenze = some _` models presence of the `visitatori` key. -/
structure ProcessedData where
  report_info : ReportInfo
  metriche_principali : Option MetricheP
  tendenze : Option TrendEntry
  anomalie : List Anomalia
  fonti_traffico : Option (List (String × FonteVal))
  dispositivi : Option (List (String × ℚ × ℚ))
  pagine_principali : Option (List PaginaP)
deriving DecidableEq

/-- The daily-visitors dict as the processing stage reaches it: present only
when `metrics`, `visitors` and `daily` keys all exist. -/
def rawDaily (raw : RawData) : Option (List (String × ℚ)) :=
  match raw.metrics with
  | some m =>
    match m.visitors with
    | some v => v.daily
    | none => none
  | none => none

/-- DataProcessingAgent._process_data.  `Except.error` occurs exactly when
the anomaly deviation divide hits a zero mean (the only unguarded division
in the stage; percentage and trend divisions are syntactically guarded by
`if total > 0` / `if avg_first > 0`, and mean/variance denominators are
positive list lengths). -/
def buildProcessed (raw : RawData) (anomalie : List Anomalia) : ProcessedData :=
  { report_info := { title := raw.report_name.getD "Analisi del sito web",
                     periodo_start := raw.start_date,
                     periodo_end := raw.end_date }
    metriche_principali := raw.metrics.map (fun m =>
      { visitatori_totali := (m.visitors.map VisitorsBlock.total).getD 0,
        visualizzazioni_pagina_totali := m.pageviews_total,
        pagine_per_sessione := m.pages_per_session })
    tendenze := match rawDaily raw with
      | some daily => computeTrend (daily.map (fun kv => kv.2))
      | none => none
    anomalie := anomalie
    fonti_traffico := raw.traffic_sources.map fontiTraffico
    dispositivi := raw.devices.map normalizeShares
    pagine_principali := raw.top_pages.map (fun pages => pages.map (fun pg =>
      { nome := simplifyPath pg.path, percorso := pg.path,
        visualizzazioni := pg.pageviews, tempo_medio := pg.avg_time })) }

def processData (raw : RawData) : Except String ProcessedData :=
  match (match rawDaily raw with
         | some daily => detectAnomalies daily
         | none => Except.ok []) with
  | .error e => .error e
  | .ok anomalie => .ok (buildProcessed raw anomalie)

/-- Top-level keys of the dict built by `_process_data`, in insertion order:
five keys from the literal at lines 72-81, then the conditionally inserted
sections. -/
def processedKeys (raw : RawData) : List String :=
  ["report_info", "metriche_principali", "tendenze", "confronti", "anomalie"] ++
  (if raw.traffic_sources.isSome then ["fonti_traffico"] else []) ++
  (if raw.devices.isSome then ["dispositivi"] else []) ++
  (if raw.top_pages.isSome then ["pagine_principali"] else [])

/-- Keys of the processed dict after the coordinator statement
`processed_data["raw_data"] = raw_data` (`webinsights_integration.py`
line 137): the key is fresh, so the dict assignment appends it. -/
def workflowProcessedKeys (raw : RawData) : List String :=
  processedKeys raw ++ ["raw_data"]

/-! ## Insight stage (`InsightGenerationAgent`)

Sentence and bullet templates are modelled as constructors carrying the
values interpolated into the Python f-strings. -/

/-- Python `s.replace('_', ' ').capitalize()`, used to display source
names. -/
def displayName (s : String) : String :=
  String.mk (pyCapitalize (s.toList.map (fun c => if c = '_' then ' ' else c)))

/-- Python `int(s)` on an all-digit sequence. -/
def pyIntAux (l : List Char) : Option ℤ :=
  match l with
  | [] => none
  | _ =>
    if l.all (fun c => 48 ≤ c.toNat && c.toNat ≤ 57) then
      some (l.foldl (fun acc c => acc * 10 + ((c.toNat : ℤ) - 48)) 0)
    else none

/-- Python `int(s)`: strip whitespace, optional sign, decimal digits
(`None` models `ValueError`; digit-group underscores are not modelled). -/
def pyInt (s : String) : Option ℤ :=
  let t := ((s.toList.dropWhile (fun c => isWs c)).reverse.dropWhile
    (fun c => isWs c)).reverse
  match t with
  | '-' :: rest => (pyIntAux rest).map (fun n => -n)
  | '+' :: rest => pyIntAux rest
  | _ => pyIntAux t

/-- InsightGenerationAgent._time_to_seconds: split on `:`; 3 parts are
`HH:MM:SS`, 2 parts are `MM:SS`, otherwise the first part alone; any
conversion failure is caught and yields 0. -/
def timeToSeconds (time_str : String) : ℤ :=
  match time_str.splitOn ":" with
  | [h, m, s] =>
    match pyInt h, pyInt m, pyInt s with
    | some hh, some mm, some ss => hh * 3600 + mm * 60 + ss
    | _, _, _ => 0
  | [m, s] =>
    match pyInt m, pyInt s with
    | some mm, some ss => mm * 60 + ss
    | _, _ => 0
  | p :: _ => (pyInt p).getD 0
  | [] => 0

/-- Python `min(pages, key=time)`: first page with the minimal parsed
average time. -/
def pyMinByTime : List PaginaP → Option PaginaP
  | [] => none
  | x :: xs => some (xs.foldl (fun acc y =>
      if timeToSeconds y.tempo_medio < timeToSeconds acc.tempo_medio then y else acc) x)

/-- Stable insert for descending order on the second component. -/
def insDescBySnd (x : String × ℚ) : List (String × ℚ) → List (String × ℚ)
  | [] => [x]
  | y :: ys => if x.2 ≥ y.2 then x :: y :: ys else y :: insDescBySnd x ys

/-- Python `sorted(pairs, key=lambda x: x[1], reverse=True)`: stable
descending sort by the second component. -/
def sortDescBySnd : List (String × ℚ) → List (String × ℚ)
  | [] => []
  | x :: xs => insDescBySnd x (sortDescBySnd xs)

/-- Clauses of the `sommario` text, in order of appendage. -/
inductive SummaryClause where
  | base (visitatori : ℚ) (pageviews : ℚ) (pps : ℚ)
  | trendClause (direzione : String) (percentuale : ℚ)
  | dominantClause (nome : String) (percentuale : ℚ)
deriving DecidableEq

/-- Sentences of `punti_chiave`, carrying the interpolated data. -/
inductive KeyPoint where
  | fonti (sorted : List (String × ℚ))
  | dispositiviP (sorted : List (String × ℚ))
  | pagineP (top3 : List (String × ℚ))
  | anomalieP (items : List (String × ℚ × String))
deriving DecidableEq

/-- Bullets of `opportunita`. -/
inductive Opportunity where
  | growthPotential (source : String) (percentuale : ℚ)
  | mobileGrowth (percentuale : ℚ)
  | mobileOptimize (percentuale : ℚ)
deriving DecidableEq

/-- Bullets of `consigli_pratici`. -/
inductive Advice where
  | internalLinking
  | seo
  | social
  | contentPage (nome : String)
deriving DecidableEq

/-- The insight bundle built by `_generate_insights`. -/
structure Insights where
  sommario : List SummaryClause
  punti_chiave : List KeyPoint
  opportunita : List Opportunity
  consigli_pratici : List Advice
deriving DecidableEq

/-- The processed dict as the insight stage reads it: the six sub-structures
fetched with `.get` at lines 80-85 (`none` models a missing key; other keys
of the dict are never read). -/
structure InsightInput where
  metriche : Option MetricheP
  tendenze : Option TrendEntry
  fonti_traffico : Option (List (String × FonteVal))
  dispositivi : Option (List (String × ℚ × ℚ))
  pagine_principali : Option (List PaginaP)
  anomalie : Option (List Anomalia)
deriving DecidableEq

/-- View of a processed bundle as the insight stage input (the workflow hands
the processed dict over by reference). -/
def toInsightInput (p : ProcessedData) : InsightInput :=
  { metriche := p.metriche_principali, tendenze := p.tendenze,
    fonti_traffico := p.fonti_traffico, dispositivi := p.dispositivi,
    pagine_principali := p.pagine_principali, anomalie := some p.anomalie }

/-- InsightGenerationAgent._generate_insights. -/
def generateInsights (p : InsightInput) : Insights :=
  let visitatori := (p.metriche.map MetricheP.visitatori_totali).getD 0
  let pageviews := (p.metriche.map MetricheP.visualizzazioni_pagina_totali).getD 0
  let pps := (p.metriche.map MetricheP.pagine_per_sessione).getD 0
  let fonti := p.fonti_traffico.getD []
  let dispositivi := p.dispositivi.getD []
  let pagine := p.pagine_principali.getD []
  let anomalie := p.anomalie.getD []
  let sommario :=
    [SummaryClause.base visitatori pageviews pps] ++
    (match p.tendenze with
     | some t => [SummaryClause.trendClause t.direzione t.percentuale]
     | none => []) ++
    (match dictGet fonti "principale" with
     | some fp => [SummaryClause.dominantClause (displayName fp.nomeGet) fp.percent]
     | none => [])
  let fontiCopy := fonti.filter (fun kv => kv.1 ≠ "principale")
  let punti :=
    (if fonti = [] then []
     else if fontiCopy = [] then []
     else [KeyPoint.fonti (sortDescBySnd (fontiCopy.map
       (fun kv => (kv.1, kv.2.percent))))]) ++
    (if dispositivi = [] then []
     else [KeyPoint.dispositiviP (sortDescBySnd (dispositivi.map
       (fun kv => (kv.1, kv.2.2))))]) ++
    (if pagine = [] then []
     else [KeyPoint.pagineP ((pagine.take 3).map
       (fun pg => (pg.nome, pg.visualizzazioni)))]) ++
    (if anomalie = [] then []
     else [KeyPoint.anomalieP (anomalie.map
       (fun a => (a.tipo, a.differenza_percentuale, a.data)))])
  let lowSources := (fonti.filter
      (fun kv => kv.1 ≠ "principale" ∧ kv.2.percent < 15)).map
    (fun kv => (displayName kv.1, kv.2.percent))
  let opportunita :=
    (if fonti = [] then []
     else lowSources.map (fun sp => Opportunity.growthPotential sp.1 sp.2)) ++
    (match (if dispositivi = [] then none else dictGet dispositivi "mobile") with
     | some e =>
       if e.2 < 30 then [Opportunity.mobileGrowth e.2]
       else if e.2 > 50 then [Opportunity.mobileOptimize e.2]
       else []
     | none => [])
  let consigli :=
    (if pps < 2 then [Advice.internalLinking] else []) ++
    (match (if fonti = [] then none else dictGet fonti "organic") with
     | some e => if e.percent < 20 then [Advice.seo] else []
     | none => []) ++
    (match (if fonti = [] then none else dictGet fonti "social") with
     | some e => if e.percent < 10 then [Advice.social] else []
     | none => []) ++
    (match pyMinByTime pagine with
     | some pg => [Advice.contentPage pg.nome]
     | none => [])
  { sommario := sommario, punti_chiave := punti,
    opportunita := opportunita, consigli_pratici := consigli }

/-- Top-level request to the insight agent: a mapping, or anything else. -/
inductive InsightRequest where
  | dict (d : InsightInput)
  | notDict
deriving DecidableEq

/-- Result of `InsightGenerationAgent.process`: generated insights, or the
error response `data = {"error": "Invalid data format"}`. -/
inductive InsightResponse where
  | ok (i : Insights)
  | invalidFormat
deriving DecidableEq

/-- InsightGenerationAgent.process, lines 44-60: a non-dict request is
answered with the invalid-format error response, never an exception. -/
def insightProcess : InsightRequest → InsightResponse
  | .dict d => .ok (generateInsights d)
  | .notDict => .invalidFormat

/-! ## Visualization stage: traffic-source chart input
(`visualization_agent.py` lines 189-216) -/

/-- Data of the traffic-sources pie chart. -/
structure TrafficChart where
  labels : List String
  values : List ℚ
deriving DecidableEq

/-- Chart construction: drop the `principale` key, then (if anything is
left) one label and one percentage value per remaining source. -/
def chartTrafficSources (fonti : List (String × FonteVal)) : Option TrafficChart :=
  let fontiCopy := fonti.filter (fun kv => kv.1 ≠ "principale")
  if fontiCopy = [] then none
  else some { labels := fontiCopy.map (fun kv => displayName kv.1),
              values := fontiCopy.map (fun kv => kv.2.percent) }

/-! ## Derived notions used by the theorem statements -/

/-- Sum of a count mapping's values (`sum(d.values())`). -/
def totalOf (m : List (String × ℚ)) : ℚ := (m.map (fun kv => kv.2)).sum

/-- Population mean of the daily series values. -/
def seriesMean (daily : List (String × ℚ)) : ℚ :=
  ((daily.map (fun kv => kv.2)).sum) / (((daily.map (fun kv => kv.2)).length : ℚ))

/-- Population variance of the daily series values. -/
def seriesVar (daily : List (String × ℚ)) : ℚ :=
  (((daily.map (fun kv => kv.2)).map (fun x => (x - seriesMean daily)^2)).sum)
    / (((daily.map (fun kv => kv.2)).length : ℚ))

/-- The anomaly record built for a flagged point. -/
def mkAnomalia (avg : ℚ) (kv : String × ℚ) : Anomalia :=
  Anomalia.mk (if kv.2 > avg then "picco" else "calo") kv.1 kv.2
    (round2 (|(kv.2 - avg) / avg| * 100))

/-- The growth-potential bullets of an opportunity list. -/
def growthBullets (ops : List Opportunity) : List Opportunity :=
  ops.filter (fun o => match o with
    | .growthPotential _ _ => true
    | _ => false)

/-! ## Supporting lemmas -/

/-! ## Supporting lemmas and claim theorems -/

theorem ratFloor_eq_floor (q : ℚ) : (Rat.floor q : ℤ) = ⌊q⌋ := by
  rw [Rat.floor_def']; exact Rat.floor_def.symm

theorem abs_roundHalfEven_sub (q : ℚ) : |(roundHalfEven q : ℚ) - q| ≤ 1/2 := by
  unfold roundHalfEven
  have h1 : ((⌊q⌋ : ℤ) : ℚ) ≤ q := Int.floor_le q
  have h2 : q < ((⌊q⌋ : ℤ) : ℚ) + 1 := Int.lt_floor_add_one q
  rw [ratFloor_eq_floor]
  split_ifs with ha hb hc <;> rw [abs_le] <;> push_cast <;>
    constructor <;> linarith

theorem abs_round2_sub (q : ℚ) : |round2 q - q| ≤ 1/200 := by
  unfold round2
  have h := abs_roundHalfEven_sub (q * 100)
  have h100 : (0:ℚ) < 100 := by norm_num
  have heq : (roundHalfEven (q * 100) : ℚ) / 100 - q
      = ((roundHalfEven (q * 100) : ℚ) - q * 100) / 100 := by ring
  rw [heq, abs_div, abs_of_pos h100, div_le_iff₀ h100]
  calc |(roundHalfEven (q * 100) : ℚ) - q * 100| ≤ 1/2 := h
    _ = 1/200 * 100 := by norm_num

theorem char_ofNat_toNat_small : ∀ n, n < 128 → (Char.ofNat n).toNat = n := by decide

theorem char_toNat_injective {a b : Char} (h : a.toNat = b.toNat) : a = b := by
  have ha := Char.ofNat_toNat a
  have hb := Char.ofNat_toNat b
  rw [← ha, ← hb, h]

theorem pyToUpper_toNat (c : Char) :
    (pyToUpper c).toNat =
      if 97 ≤ c.toNat ∧ c.toNat ≤ 122 then c.toNat - 32 else c.toNat := by
  unfold pyToUpper
  split_ifs with h
  · exact char_ofNat_toNat_small _ (by omega)
  · rfl

theorem pyToLower_toNat (c : Char) :
    (pyToLower c).toNat =
      if 65 ≤ c.toNat ∧ c.toNat ≤ 90 then c.toNat + 32 else c.toNat := by
  unfold pyToLower
  split_ifs with h
  · exact char_ofNat_toNat_small _ (by omega)
  · rfl

theorem pyToUpper_idem (c : Char) : pyToUpper (pyToUpper c) = pyToUpper c := by
  apply char_toNat_injective
  simp only [pyToUpper_toNat]
  split_ifs <;> omega

theorem pyToLower_idem (c : Char) : pyToLower (pyToLower c) = pyToLower c := by
  apply char_toNat_injective
  simp only [pyToLower_toNat]
  split_ifs <;> omega

theorem isWsN_false_iff (n : Nat) :
    isWsN n = false ↔ (n ≠ 32 ∧ n ≠ 9 ∧ n ≠ 10 ∧ n ≠ 13 ∧ n ≠ 11 ∧ n ≠ 12) := by
  simp [isWsN]
  tauto

theorem isWs_pyToUpper (c : Char) : isWs (pyToUpper c) = isWs c := by
  unfold isWs
  rw [pyToUpper_toNat]
  split_ifs with h
  · rw [show isWsN (c.toNat - 32) = false from (isWsN_false_iff _).2 (by omega),
      show isWsN c.toNat = false from (isWsN_false_iff _).2 (by omega)]
  · rfl

theorem isWs_pyToLower (c : Char) : isWs (pyToLower c) = isWs c := by
  unfold isWs
  rw [pyToLower_toNat]
  split_ifs with h
  · rw [show isWsN (c.toNat + 32) = false from (isWsN_false_iff _).2 (by omega),
      show isWsN c.toNat = false from (isWsN_false_iff _).2 (by omega)]
  · rfl

theorem char_eq_iff_toNat {a b : Char} : a = b ↔ a.toNat = b.toNat :=
  ⟨fun h => by rw [h], char_toNat_injective⟩

theorem pyToUpper_toNat_ne (c : Char) (h1 : c.toNat ≠ 45) (h2 : c.toNat ≠ 95) :
    (pyToUpper c).toNat ≠ 45 ∧ (pyToUpper c).toNat ≠ 95 := by
  rw [pyToUpper_toNat]; split_ifs <;> omega

theorem pyToLower_toNat_ne (c : Char) (h1 : c.toNat ≠ 45) (h2 : c.toNat ≠ 95) :
    (pyToLower c).toNat ≠ 45 ∧ (pyToLower c).toNat ≠ 95 := by
  rw [pyToLower_toNat]; split_ifs <;> omega

theorem splitWsAux_word_mem : ∀ (s acc : List Char) (w : List Char),
    w ∈ splitWsAux s acc → ∀ c ∈ w, c ∈ s ∨ c ∈ acc := by
  intro s
  induction s with
  | nil =>
    intro acc w hw c hc
    unfold splitWsAux at hw
    split_ifs at hw with h
    · simp at hw
    · simp at hw
      subst hw
      right
      exact (List.mem_reverse).1 hc
  | cons x xs ih =>
    intro acc w hw c hc
    unfold splitWsAux at hw
    split_ifs at hw with h1 h2
    · rcases ih [] w hw c hc with h | h
      · exact Or.inl (List.mem_cons_of_mem _ h)
      · simp at h
    · rcases List.mem_cons.1 hw with h | h
      · subst h
        right
        exact (List.mem_reverse).1 hc
      · rcases ih [] w h c hc with h | h
        · exact Or.inl (List.mem_cons_of_mem _ h)
        · simp at h
    · rcases ih _ w hw c hc with h | h
      · exact Or.inl (List.mem_cons_of_mem _ h)
      · rcases List.mem_cons.1 h with h | h
        · subst h
          exact Or.inl (List.mem_cons_self _ _)
        · exact Or.inr h

theorem splitWsAux_word_not_ws : ∀ (s acc : List Char),
    (∀ c ∈ acc, isWs c = false) →
    ∀ w ∈ splitWsAux s acc, ∀ c ∈ w, isWs c = false := by
  intro s
  induction s with
  | nil =>
    intro acc hacc w hw c hc
    unfold splitWsAux at hw
    split_ifs at hw with h
    · simp at hw
    · simp at hw
      subst hw
      exact hacc c ((List.mem_reverse).1 hc)
  | cons x xs ih =>
    intro acc hacc w hw c hc
    unfold splitWsAux at hw
    split_ifs at hw with h1 h2
    · exact ih [] (by simp) w hw c hc
    · rcases List.mem_cons.1 hw with h | h
      · subst h
        exact hacc c ((List.mem_reverse).1 hc)
      · exact ih [] (by simp) w h c hc
    · refine ih _ ?_ w hw c hc
      intro d hd
      rcases List.mem_cons.1 hd with h | h
      · subst h
        exact Bool.not_eq_true _ ▸ (by simpa using h1)
      · exact hacc d h

theorem splitWsAux_word_ne_nil : ∀ (s acc : List Char),
    ∀ w ∈ splitWsAux s acc, w ≠ [] := by
  intro s
  induction s with
  | nil =>
    intro acc w hw
    unfold splitWsAux at hw
    split_ifs at hw with h
    · simp at hw
    · simp at hw
      subst hw
      simpa using h
  | cons x xs ih =>
    intro acc w hw
    unfold splitWsAux at hw
    split_ifs at hw with h1 h2
    · exact ih [] w hw
    · rcases List.mem_cons.1 hw with h | h
      · subst h
        simpa using h2
      · exact ih [] w h
    · exact ih _ w hw

theorem splitWsAux_append_word : ∀ (w rest acc : List Char),
    (∀ c ∈ w, isWs c = false) →
    splitWsAux (w ++ rest) acc = splitWsAux rest (w.reverse ++ acc) := by
  intro w
  induction w with
  | nil => intro rest acc _; simp
  | cons c cs ih =>
    intro rest acc hw
    have hc : isWs c = false := hw c (List.mem_cons_self _ _)
    show splitWsAux (c :: (cs ++ rest)) acc = _
    have h1 : splitWsAux (c :: (cs ++ rest)) acc =
        if isWs c then
          (if acc = [] then splitWsAux (cs ++ rest) []
            else acc.reverse :: splitWsAux (cs ++ rest) [])
        else splitWsAux (cs ++ rest) (c :: acc) := rfl
    rw [h1, if_neg (by simp [hc])]
    rw [ih rest (c :: acc) (fun d hd => hw d (List.mem_cons_of_mem _ hd))]
    congr 1
    simp

theorem splitWs_joinSpace : ∀ ws : List (List Char),
    (∀ w ∈ ws, w ≠ [] ∧ ∀ c ∈ w, isWs c = false) →
    splitWs (joinSpace ws) = ws := by
  intro ws
  induction ws with
  | nil => intro _; rfl
  | cons w ws ih =>
    intro h
    obtain ⟨hw_ne, hw_ws⟩ := h w (List.mem_cons_self _ _)
    cases ws with
    | nil =>
      show splitWs (joinSpace [w]) = [w]
      unfold joinSpace splitWs
      rw [show w = w ++ ([] : List Char) from by simp]
      rw [splitWsAux_append_word w [] [] (by simpa using hw_ws)]
      unfold splitWsAux
      rw [if_neg (by simpa using hw_ne)]
      simp
    | cons w2 ws2 =>
      show splitWs (w ++ ' ' :: joinSpace (w2 :: ws2)) = w :: w2 :: ws2
      unfold splitWs
      rw [splitWsAux_append_word w _ [] hw_ws]
      show splitWsAux (' ' :: joinSpace (w2 :: ws2)) (w.reverse ++ []) = _
      unfold splitWsAux
      rw [if_pos (by decide)]
      rw [if_neg (by simpa using hw_ne)]
      have := ih (fun x hx => h x (List.mem_cons_of_mem _ hx))
      unfold splitWs at this
      rw [this]
      simp

theorem pyCapitalize_ne_nil {w : List Char} (h : w ≠ []) : pyCapitalize w ≠ [] := by
  cases w with
  | nil => exact absurd rfl h
  | cons c cs => simp [pyCapitalize]

theorem pyCapitalize_not_ws {w : List Char} (h : ∀ c ∈ w, isWs c = false) :
    ∀ c ∈ pyCapitalize w, isWs c = false := by
  cases w with
  | nil => simp [pyCapitalize]
  | cons c cs =>
    intro d hd
    rcases List.mem_cons.1 hd with h1 | h1
    · subst h1
      rw [isWs_pyToUpper]
      exact h c (List.mem_cons_self _ _)
    · obtain ⟨e, he, rfl⟩ := List.mem_map.1 h1
      rw [isWs_pyToLower]
      exact h e (List.mem_cons_of_mem _ he)

theorem pyCapitalize_not_dash {w : List Char}
    (h : ∀ c ∈ w, c.toNat ≠ 45 ∧ c.toNat ≠ 95) :
    ∀ c ∈ pyCapitalize w, c.toNat ≠ 45 ∧ c.toNat ≠ 95 := by
  cases w with
  | nil => simp [pyCapitalize]
  | cons c cs =>
    intro d hd
    rcases List.mem_cons.1 hd with h1 | h1
    · subst h1
      exact pyToUpper_toNat_ne c (h c (List.mem_cons_self _ _)).1
        (h c (List.mem_cons_self _ _)).2
    · obtain ⟨e, he, rfl⟩ := List.mem_map.1 h1
      exact pyToLower_toNat_ne e (h e (List.mem_cons_of_mem _ he)).1
        (h e (List.mem_cons_of_mem _ he)).2

theorem pyCapitalize_idem (w : List Char) :
    pyCapitalize (pyCapitalize w) = pyCapitalize w := by
  cases w with
  | nil => rfl
  | cons c cs =>
    show pyCapitalize (pyToUpper c :: cs.map pyToLower) = _
    show pyToUpper (pyToUpper c) :: (cs.map pyToLower).map pyToLower = _
    rw [pyToUpper_idem]
    congr 1
    rw [List.map_map]
    exact List.map_congr_left (fun d _ => pyToLower_idem d)

theorem joinSpace_mem : ∀ (ws : List (List Char)) (c : Char),
    c ∈ joinSpace ws → c = ' ' ∨ ∃ w ∈ ws, c ∈ w := by
  intro ws
  induction ws with
  | nil => intro c hc; simp [joinSpace] at hc
  | cons w ws ih =>
    intro c hc
    cases ws with
    | nil =>
      right
      exact ⟨w, List.mem_cons_self _ _, hc⟩
    | cons w2 ws2 =>
      rcases List.mem_append.1 hc with h | h
      · exact Or.inr ⟨w, List.mem_cons_self _ _, h⟩
      · rcases List.mem_cons.1 h with h1 | h1
        · exact Or.inl h1
        · rcases ih c h1 with h2 | ⟨v, hv, hcv⟩
          · exact Or.inl h2
          · exact Or.inr ⟨v, List.mem_cons_of_mem _ hv, hcv⟩

theorem dropWhile_eq_of_head (s : List Char) (p : Char → Bool)
    (h : ∀ c, s.head? = some c → p c = false) : s.dropWhile p = s := by
  cases s with
  | nil => rfl
  | cons c cs =>
    rw [List.dropWhile_cons]
    rw [h c rfl]
    simp

theorem stripSlashes_eq (s : List Char)
    (h1 : ∀ c, s.head? = some c → c ≠ '/')
    (h2 : ∀ c, s.getLast? = some c → c ≠ '/') : stripSlashes s = s := by
  unfold stripSlashes
  rw [dropWhile_eq_of_head s _ (fun c hc => by
    simp only [decide_eq_false_iff_not]
    exact h1 c hc)]
  rw [dropWhile_eq_of_head s.reverse _ (fun c hc => by
    simp only [decide_eq_false_iff_not]
    exact h2 c (by rwa [← List.head?_reverse]))]
  simp

theorem replaceDashes_eq (s : List Char)
    (h : ∀ c ∈ s, c.toNat ≠ 45 ∧ c.toNat ≠ 95) : replaceDashes s = s := by
  induction s with
  | nil => rfl
  | cons c cs ih =>
    have hc := h c (List.mem_cons_self _ _)
    have hcs := ih (fun d hd => h d (List.mem_cons_of_mem _ hd))
    unfold replaceDashes at hcs ⊢
    simp only [List.map_cons]
    rw [hcs, if_neg]
    rintro (h1 | h1)
    · exact hc.1 (by rw [h1]; decide)
    · exact hc.2 (by rw [h1]; decide)

theorem replaceDashes_no_dash (s : List Char) :
    ∀ c ∈ replaceDashes s, c.toNat ≠ 45 ∧ c.toNat ≠ 95 := by
  intro c hc
  obtain ⟨d, _, rfl⟩ := List.mem_map.1 hc
  split_ifs with h
  · constructor <;> decide
  · push_neg at h
    constructor
    · intro hn; exact h.1 (char_toNat_injective (by rw [hn]; decide))
    · intro hn; exact h.2 (char_toNat_injective (by rw [hn]; decide))

/-- Applying the simplification a second time is the identity, as long as the
first result neither starts nor ends with a slash character (translation of
the second pass: strip, replace and split then leave the already-clean words
untouched and `capitalize` is idempotent per word). -/
theorem simplifyPagePath_of_ne (q : List Char) (h : q ≠ ['/']) :
    simplifyPagePath q
      = joinSpace ((splitWs (replaceDashes (stripSlashes q))).map pyCapitalize) := by
  rw [simplifyPagePath, if_neg h]

theorem simplifyPagePath_idem (p : List Char)
    (h1 : ∀ c, (simplifyPagePath p).head? = some c → c ≠ '/')
    (h2 : ∀ c, (simplifyPagePath p).getLast? = some c → c ≠ '/') :
    simplifyPagePath (simplifyPagePath p) = simplifyPagePath p := by
  by_cases hp : p = ['/']
  · subst hp
    decide
  · have hre := simplifyPagePath_of_ne p hp
    set ws := (splitWs (replaceDashes (stripSlashes p))).map pyCapitalize with hws
    have hwords : ∀ w ∈ ws, w ≠ [] ∧ ∀ c ∈ w, isWs c = false := by
      intro w hw
      obtain ⟨w0, hw0, rfl⟩ := List.mem_map.1 hw
      refine ⟨pyCapitalize_ne_nil (splitWsAux_word_ne_nil _ _ _ hw0), ?_⟩
      exact pyCapitalize_not_ws (splitWsAux_word_not_ws _ _ (by simp) _ hw0)
    have hdash : ∀ c ∈ joinSpace ws, c.toNat ≠ 45 ∧ c.toNat ≠ 95 := by
      intro c hc
      rcases joinSpace_mem ws c hc with h | ⟨w, hw, hcw⟩
      · subst h; constructor <;> decide
      · obtain ⟨w0, hw0, rfl⟩ := List.mem_map.1 hw
        refine pyCapitalize_not_dash ?_ c hcw
        intro d hd
        exact replaceDashes_no_dash _ d
          (splitWsAux_word_mem _ _ _ hw0 d hd |>.resolve_right (by simp))
    have hrs : simplifyPagePath p ≠ ['/'] := by
      intro hcon
      exact h1 '/' (by rw [hcon]; rfl) rfl
    rw [hre] at h1 h2
    rw [simplifyPagePath_of_ne (simplifyPagePath p) hrs]
    rw [hre]
    rw [stripSlashes_eq _ h1 h2]
    rw [replaceDashes_eq _ hdash]
    rw [splitWs_joinSpace ws hwords]
    rw [List.map_map]
    congr 1
    exact List.map_congr_left (fun w _ => pyCapitalize_idem w)

theorem pyMaxBySnd_foldl_first_max (step : (String × ℚ) → (String × ℚ) → (String × ℚ))
    (hstep : step = fun acc y => if y.2 > acc.2 then y else acc) :
    ∀ (xs : List (String × ℚ)) (acc : String × ℚ),
      (xs.foldl step acc = acc ∧ ∀ y ∈ xs, y.2 ≤ acc.2) ∨
      (∃ l₁ m l₂, xs = l₁ ++ m :: l₂ ∧ xs.foldl step acc = m ∧ acc.2 < m.2 ∧
        (∀ y ∈ l₁, y.2 < m.2) ∧ (∀ y ∈ l₂, y.2 ≤ m.2)) := by
  intro xs
  induction xs with
  | nil => intro acc; left; exact ⟨rfl, by simp⟩
  | cons y ys ih =>
    intro acc
    have hfold : (y :: ys).foldl step acc = ys.foldl step (step acc y) :=
      List.foldl_cons _ _
    by_cases hy : y.2 > acc.2
    · have hstep_y : step acc y = y := by rw [hstep]; simp [hy]
      rcases ih y with ⟨hr, hall⟩ | ⟨l₁, m, l₂, heq, hr, hacc, hl₁, hl₂⟩
      · right
        exact ⟨[], y, ys, by simp, by rw [hfold, hstep_y]; exact hr, hy,
          by simp, hall⟩
      · right
        refine ⟨y :: l₁, m, l₂, by rw [heq]; rfl, by rw [hfold, hstep_y]; exact hr,
          lt_trans hy hacc, ?_, hl₂⟩
        intro z hz
        rcases List.mem_cons.1 hz with h | h
        · rw [h]; exact hacc
        · exact hl₁ z h
    · push_neg at hy
      have hstep_y : step acc y = acc := by
        rw [hstep]; simp only []
        rw [if_neg (by push_neg; exact hy)]
      rcases ih acc with ⟨hr, hall⟩ | ⟨l₁, m, l₂, heq, hr, hacc, hl₁, hl₂⟩
      · left
        refine ⟨by rw [hfold, hstep_y]; exact hr, ?_⟩
        intro z hz
        rcases List.mem_cons.1 hz with h | h
        · rw [h]; exact hy
        · exact hall z h
      · right
        refine ⟨y :: l₁, m, l₂, by rw [heq]; rfl, by rw [hfold, hstep_y]; exact hr,
          hacc, ?_, hl₂⟩
        intro z hz
        rcases List.mem_cons.1 hz with h | h
        · rw [h]; exact lt_of_le_of_lt hy hacc
        · exact hl₁ z h

theorem pyMaxBySnd_spec (s : List (String × ℚ)) (hs : s ≠ []) :
    ∃ l₁ m l₂, s = l₁ ++ m :: l₂ ∧ pyMaxBySnd s = some m ∧
      (∀ y ∈ l₁, y.2 < m.2) ∧ (∀ y ∈ s, y.2 ≤ m.2) := by
  cases s with
  | nil => exact absurd rfl hs
  | cons x xs =>
    have h := pyMaxBySnd_foldl_first_max _ rfl xs x
    rcases h with ⟨hr, hall⟩ | ⟨l₁, m, l₂, heq, hr, hacc, hl₁, hl₂⟩
    · refine ⟨[], x, xs, by simp, ?_, by simp, ?_⟩
      · show some (xs.foldl _ x) = some x
        rw [hr]
      · intro y hy
        rcases List.mem_cons.1 hy with h | h
        · rw [h]
        · exact hall y h
    · refine ⟨x :: l₁, m, l₂, by rw [heq]; rfl, ?_, ?_, ?_⟩
      · show some (xs.foldl _ x) = some m
        rw [hr]
      · intro y hy
        rcases List.mem_cons.1 hy with h | h
        · rw [h]; exact hacc
        · exact hl₁ y h
      · intro y hy
        rcases List.mem_cons.1 hy with h | h
        · rw [h]; exact le_of_lt hacc
        · rw [heq] at h
          rcases List.mem_append.1 h with h0 | h0
          · exact le_of_lt (hl₁ y h0)
          · rcases List.mem_cons.1 h0 with h1 | h1
            · rw [h1]
            · exact hl₂ y h1

theorem anomalyTest_iff (x s v : ℚ) (hs : 0 ≤ s) (hv : s^2 = v) :
    x^2 > 4 * v ↔ |x| > 2 * s := by
  subst hv
  constructor
  · intro h
    nlinarith [sq_abs x, abs_nonneg x]
  · intro h
    nlinarith [sq_abs x, abs_nonneg x]

theorem detectAnomaliesGo_eq_filter (avg v s : ℚ) (hs : 0 ≤ s) (hv : s^2 = v)
    (havg : avg ≠ 0) : ∀ l : List (String × ℚ),
    detectAnomaliesGo avg v l
      = Except.ok ((l.filter (fun kv => |kv.2 - avg| > 2 * s)).map (mkAnomalia avg)) := by
  intro l
  induction l with
  | nil => rfl
  | cons kv rest ih =>
    obtain ⟨d, x⟩ := kv
    show detectAnomaliesGo avg v ((d, x) :: rest) = _
    unfold detectAnomaliesGo
    rw [List.filter_cons]
    by_cases h : |x - avg| > 2 * s
    · rw [if_pos ((anomalyTest_iff (x - avg) s v hs hv).2 h)]
      rw [if_neg havg, ih]
      simp [h, mkAnomalia]
    · rw [if_neg (fun hc => h ((anomalyTest_iff (x - avg) s v hs hv).1 hc))]
      rw [ih]
      simp [h]

theorem detectAnomalies_eq_filter (daily : List (String × ℚ))
    (h3 : 3 ≤ daily.length) (s : ℚ) (hs : 0 ≤ s) (hv : s^2 = seriesVar daily)
    (havg : seriesMean daily ≠ 0) :
    detectAnomalies daily
      = Except.ok ((daily.filter
          (fun kv => |kv.2 - seriesMean daily| > 2 * s)).map
          (mkAnomalia (seriesMean daily))) := by
  unfold detectAnomalies
  rw [if_pos (by simpa using h3)]
  exact detectAnomaliesGo_eq_filter _ _ s hs hv havg daily

/-- C8: for every non-empty traffic-source mapping, `max(items, key=value)`
returns the first entry carrying the maximal count (ties broken by insertion
order); in particular `{"direct": 50, "organic": 50}` yields `direct`. -/
theorem c8_dominant_source_first_max :
    (∀ s : List (String × ℚ), s ≠ [] →
      ∃ l₁ m l₂, s = l₁ ++ m :: l₂ ∧ pyMaxBySnd s = some m ∧
        (∀ y ∈ l₁, y.2 < m.2) ∧ (∀ y ∈ s, y.2 ≤ m.2)) ∧
    pyMaxBySnd [("direct", (50:ℚ)), ("organic", 50)] = some ("direct", 50) :=
  ⟨pyMaxBySnd_spec, by decide⟩

/-- C3: trend detection — fewer than 2 points yields no trend; otherwise the
series splits at `len // 2` (the extra element of an odd-length series goes
to the second half), the trend is omitted unless the first-half mean is
positive, direction is `crescita` (growth) exactly when the rate is positive
and `decrescita` (decline) otherwise, and the magnitude is the rounded
absolute rate. -/
theorem c3_trend_detection (daily : List ℚ) :
    (daily.length < 2 → computeTrend daily = none) ∧
    ((daily.take (daily.length / 2)).length = daily.length / 2) ∧
    ((daily.drop (daily.length / 2)).length = daily.length - daily.length / 2) ∧
    (∀ _h2 : 2 ≤ daily.length,
      (((daily.take (daily.length / 2)).sum
          / ((daily.take (daily.length / 2)).length : ℚ) ≤ 0) →
        computeTrend daily = none) ∧
      (∀ _hm : 0 < (daily.take (daily.length / 2)).sum
          / ((daily.take (daily.length / 2)).length : ℚ),
        computeTrend daily = some
          { direzione :=
              if 0 < ((daily.drop (daily.length / 2)).sum
                    / ((daily.drop (daily.length / 2)).length : ℚ)
                  - (daily.take (daily.length / 2)).sum
                    / ((daily.take (daily.length / 2)).length : ℚ))
                  / ((daily.take (daily.length / 2)).sum
                    / ((daily.take (daily.length / 2)).length : ℚ)) * 100
              then "crescita" else "decrescita",
            percentuale :=
              round2 |((daily.drop (daily.length / 2)).sum
                    / ((daily.drop (daily.length / 2)).length : ℚ)
                  - (daily.take (daily.length / 2)).sum
                    / ((daily.take (daily.length / 2)).length : ℚ))
                  / ((daily.take (daily.length / 2)).sum
                    / ((daily.take (daily.length / 2)).length : ℚ)) * 100| })) := by
  refine ⟨?_, by simp [List.length_take]; omega, by simp, ?_⟩
  · intro h
    unfold computeTrend
    rw [if_neg (by omega)]
  · intro h2
    constructor
    · intro hm
      unfold computeTrend
      rw [if_pos h2]
      rw [if_neg (by push_neg; exact hm)]
    · intro hm
      unfold computeTrend
      rw [if_pos h2, if_pos hm]

theorem c3_trend_detection_witness :
    computeTrend [100, 110, 120, 130] = some ⟨"crescita", 381/20⟩ := by
  have h := (c3_trend_detection [100, 110, 120, 130]).2.2.2 (by decide) |>.2 (by decide)
  rw [h]
  decide

/-- C2 counterexample: for the series `[100,100,100,100,500]` the last point
sits at exactly two standard deviations (`|500 - 180| = 320 = 2 * 160`), so
the strict `>` test does not flag it: the anomaly list is empty, not a
`spike`. -/
theorem c2_boundary_series_not_flagged :
    detectAnomalies [("2025-05-01", (100:ℚ)), ("2025-05-02", 100),
      ("2025-05-03", 100), ("2025-05-04", 100), ("2025-05-05", 500)]
      = Except.ok [] := by decide

/-- C2 (amended): a point is an anomaly exactly when
`abs(value - mean) > 2 * stddev` holds strictly (the squared embedding of
the test is equivalent whenever a nonnegative square root of the variance
exists), with kind `picco` (spike) when the value exceeds the mean and
`calo` (drop) otherwise; the series `[100,100,100,100,500]` sits exactly on
the boundary and is not flagged, while `[100,100,100,100,100,500]` flags its
last point as a spike. -/
theorem c2_anomaly_rule_and_boundary :
    (∀ x s v : ℚ, 0 ≤ s → s^2 = v → (x^2 > 4 * v ↔ |x| > 2 * s)) ∧
    (∀ daily : List (String × ℚ), 3 ≤ daily.length → ∀ s : ℚ, 0 ≤ s →
      s^2 = seriesVar daily → seriesMean daily ≠ 0 →
      detectAnomalies daily = Except.ok ((daily.filter
        (fun kv => |kv.2 - seriesMean daily| > 2 * s)).map
        (mkAnomalia (seriesMean daily)))) ∧
    detectAnomalies [("2025-05-01", (100:ℚ)), ("2025-05-02", 100),
      ("2025-05-03", 100), ("2025-05-04", 100), ("2025-05-05", 100),
      ("2025-05-06", 500)]
      = Except.ok [Anomalia.mk "picco" "2025-05-06" 500 200] :=
  ⟨anomalyTest_iff,
   fun daily h3 s hs hv havg => detectAnomalies_eq_filter daily h3 s hs hv havg,
   by decide⟩

theorem c2_anomaly_rule_witness :
    detectAnomalies [("d1", (0:ℚ)), ("d2", 0), ("d3", 0), ("d4", 0), ("d5", 5)]
      = Except.ok [] := by
  have h := c2_anomaly_rule_and_boundary.2.1
    [("d1", (0:ℚ)), ("d2", 0), ("d3", 0), ("d4", 0), ("d5", 5)]
    (by decide) 2 (by norm_num) (by decide) (by decide)
  rw [h]
  decide

theorem sum_map_sub_abs_le {a : Type} (l : List a) (f g : a → ℚ) (c : ℚ)
    (h : ∀ x ∈ l, |f x - g x| ≤ c) :
    |(l.map f).sum - (l.map g).sum| ≤ l.length * c := by
  induction l with
  | nil => simp
  | cons x xs ih =>
    simp only [List.map_cons, List.sum_cons, List.length_cons]
    have h1 := h x (List.mem_cons_self _ _)
    have h2 := ih (fun y hy => h y (List.mem_cons_of_mem _ hy))
    have heq : f x + (xs.map f).sum - (g x + (xs.map g).sum)
        = (f x - g x) + ((xs.map f).sum - (xs.map g).sum) := by ring
    rw [heq]
    calc |(f x - g x) + ((xs.map f).sum - (xs.map g).sum)|
        ≤ |f x - g x| + |(xs.map f).sum - (xs.map g).sum| := abs_add _ _
      _ ≤ c + xs.length * c := add_le_add h1 h2
      _ = (xs.length + 1 : ℕ) * c := by push_cast; ring

theorem sum_map_div_total (m : List (String × ℚ)) (h : totalOf m ≠ 0) :
    (m.map (fun kv => (kv.2 / totalOf m) * 100)).sum = 100 := by
  have heq : m.map (fun kv => (kv.2 / totalOf m) * 100)
      = m.map (fun kv => kv.2 * (100 / totalOf m)) :=
    List.map_congr_left (fun kv _ => by ring)
  rw [heq, List.sum_map_mul_right]
  show totalOf m * (100 / totalOf m) = 100
  field_simp

/-- C4 (amended): each percentage is `round(100 * value / total, 2)`; a zero
total yields exactly 0 everywhere without an error; for a positive total the
rounded percentages sum to 100 within `0.005` per key — hence within the
claimed `0.1` for mappings of at most 20 keys (the flat `0.1` bound fails
for larger mappings, see the counterexample). -/
theorem c4_percentage_normalization (m : List (String × ℚ))
    ( _hnn : ∀ kv ∈ m, 0 ≤ kv.2) :
    (normalizeShares m = m.map (fun kv =>
      (kv.1, kv.2, if 0 < totalOf m then round2 (100 * kv.2 / totalOf m) else 0))) ∧
    (totalOf m = 0 → ∀ e ∈ normalizeShares m, e.2.2 = 0) ∧
    (0 < totalOf m →
      |((normalizeShares m).map (fun e => e.2.2)).sum - 100| ≤ m.length / 200) ∧
    (0 < totalOf m → m.length ≤ 20 →
      |((normalizeShares m).map (fun e => e.2.2)).sum - 100| ≤ 1/10) := by
  have hform : ∀ (ht : 0 < totalOf m),
      (normalizeShares m).map (fun e => e.2.2)
        = m.map (fun kv => round2 ((kv.2 / totalOf m) * 100)) := by
    intro ht
    unfold normalizeShares totalOf at *
    rw [List.map_map]
    exact List.map_congr_left (fun kv _ => by simp only [Function.comp]; rw [if_pos ht])
  have hlen : ∀ (ht : 0 < totalOf m),
      |((normalizeShares m).map (fun e => e.2.2)).sum - 100| ≤ m.length / 200 := by
    intro ht
    rw [hform ht]
    have htrue := sum_map_div_total m (ne_of_gt ht)
    have hb := sum_map_sub_abs_le m (fun kv => round2 ((kv.2 / totalOf m) * 100))
      (fun kv => (kv.2 / totalOf m) * 100) (1/200)
      (fun kv _ => abs_round2_sub _)
    rw [htrue] at hb
    calc |(m.map (fun kv => round2 ((kv.2 / totalOf m) * 100))).sum - 100|
        ≤ m.length * (1/200) := hb
      _ = m.length / 200 := by ring
  refine ⟨?_, ?_, hlen, ?_⟩
  · unfold normalizeShares totalOf
    refine List.map_congr_left (fun kv _ => ?_)
    have : (kv.2 / (m.map (fun kv => kv.2)).sum) * 100
        = 100 * kv.2 / (m.map (fun kv => kv.2)).sum := by ring
    rw [this]
  · intro htot e he
    unfold normalizeShares at he
    obtain ⟨kv, _, rfl⟩ := List.mem_map.1 he
    show (if 0 < (m.map (fun kv => kv.2)).sum then _ else 0) = 0
    rw [if_neg]
    unfold totalOf at htot
    rw [htot]
    exact lt_irrefl 0
  · intro ht hlen20
    calc |((normalizeShares m).map (fun e => e.2.2)).sum - 100|
        ≤ m.length / 200 := hlen ht
      _ ≤ 20 / 200 := by
          apply div_le_div_of_nonneg_right ?_ (by norm_num)
          exact_mod_cast hlen20
      _ = 1/10 := by norm_num

theorem c4_percentage_normalization_witness :
    normalizeShares [("direct", (50:ℚ)), ("organic", 30), ("social", 20)]
      = [("direct", 50, 50), ("organic", 30, 30), ("social", 20, 20)] ∧
    |((normalizeShares [("direct", (50:ℚ)), ("organic", 30),
        ("social", 20)]).map (fun e => e.2.2)).sum - 100| ≤ 1/10 := by
  have h := c4_percentage_normalization
    [("direct", (50:ℚ)), ("organic", 30), ("social", 20)] (by decide)
  exact ⟨by rw [h.1]; decide, h.2.2.2 (by decide) (by decide)⟩

/-- C4 counterexample: sixty equal counts give sixty percentages of 1.67,
summing to 100.2 — outside the claimed universal 0.1 tolerance. -/
theorem c4_tolerance_fails_at_60 :
    (((normalizeShares ((List.range 60).map (fun i => (toString i, (1:ℚ))))).map
      (fun e => e.2.2)).sum = 501/5) ∧
    ¬(|(((normalizeShares ((List.range 60).map
        (fun i => (toString i, (1:ℚ))))).map
      (fun e => e.2.2)).sum - 100)| ≤ 1/10) := by
  constructor
  · decide
  · decide

theorem list_sum_zero_of_nonneg : ∀ l : List ℚ, (∀ x ∈ l, 0 ≤ x) →
    l.sum = 0 → ∀ x ∈ l, x = 0 := by
  intro l
  induction l with
  | nil => intro _ _ x hx; simp at hx
  | cons y ys ih =>
    intro hnn hsum x hx
    have hy : 0 ≤ y := hnn y (List.mem_cons_self _ _)
    have hys : 0 ≤ ys.sum :=
      List.sum_nonneg (fun z hz => hnn z (List.mem_cons_of_mem _ hz))
    rw [List.sum_cons] at hsum
    have hy0 : y = 0 := by linarith
    have hsum0 : ys.sum = 0 := by linarith
    rcases List.mem_cons.1 hx with h | h
    · rw [h, hy0]
    · exact ih (fun z hz => hnn z (List.mem_cons_of_mem _ hz)) hsum0 x h

theorem detectAnomaliesGo_ok_of_ne (avg v : ℚ) (havg : avg ≠ 0) :
    ∀ l : List (String × ℚ), ∃ res, detectAnomaliesGo avg v l = Except.ok res := by
  intro l
  induction l with
  | nil => exact ⟨[], rfl⟩
  | cons kv rest ih =>
    obtain ⟨d, x⟩ := kv
    obtain ⟨res, hres⟩ := ih
    show ∃ r, detectAnomaliesGo avg v ((d, x) :: rest) = Except.ok r
    unfold detectAnomaliesGo
    by_cases h : (x - avg)^2 > 4 * v
    · rw [if_pos h, if_neg havg, hres]
      exact ⟨_, rfl⟩
    · rw [if_neg h, hres]
      exact ⟨res, rfl⟩

theorem detectAnomaliesGo_nil (avg v : ℚ) :
    ∀ l : List (String × ℚ), (∀ kv ∈ l, ¬((kv.2 - avg)^2 > 4 * v)) →
    detectAnomaliesGo avg v l = Except.ok [] := by
  intro l
  induction l with
  | nil => intro _; rfl
  | cons kv rest ih =>
    intro h
    obtain ⟨d, x⟩ := kv
    show detectAnomaliesGo avg v ((d, x) :: rest) = Except.ok []
    unfold detectAnomaliesGo
    rw [if_neg (h (d, x) (List.mem_cons_self _ _))]
    exact ih (fun z hz => h z (List.mem_cons_of_mem _ hz))

theorem detectAnomalies_def_eq (daily : List (String × ℚ)) :
    detectAnomalies daily
      = if (daily.map (fun kv => kv.2)).length ≥ 3
        then detectAnomaliesGo (seriesMean daily) (seriesVar daily) daily
        else Except.ok [] := rfl

theorem detectAnomalies_nonneg (daily : List (String × ℚ))
    (hnn : ∀ kv ∈ daily, 0 ≤ kv.2) :
    (∃ res, detectAnomalies daily = Except.ok res) ∧
    ((daily.map (fun kv => kv.2)).sum = 0 →
      detectAnomalies daily = Except.ok []) := by
  rw [detectAnomalies_def_eq]
  by_cases hlen : (daily.map (fun kv => kv.2)).length ≥ 3
  · rw [if_pos hlen]
    by_cases havg : seriesMean daily = 0
    · have hsum : (daily.map (fun kv => kv.2)).sum = 0 := by
        unfold seriesMean at havg
        rcases div_eq_zero_iff.1 havg with h | h
        · exact h
        · exfalso
          rw [Nat.cast_eq_zero] at h
          omega
      have hall : ∀ x ∈ daily.map (fun kv => kv.2), x = 0 :=
        list_sum_zero_of_nonneg _
          (fun x hx => by
            obtain ⟨kv, hkv, rfl⟩ := List.mem_map.1 hx
            exact hnn kv hkv)
          hsum
      have hvar : seriesVar daily = 0 := by
        unfold seriesVar
        have hz : ((daily.map (fun kv => kv.2)).map
            (fun x => (x - seriesMean daily)^2)).sum = 0 := by
          refine List.sum_eq_zero ?_
          intro x hx
          obtain ⟨y, hy, rfl⟩ := List.mem_map.1 hx
          rw [hall y hy, havg]
          ring
        rw [hz]
        simp
      have hgo : detectAnomaliesGo (seriesMean daily) (seriesVar daily) daily
          = Except.ok [] := by
        apply detectAnomaliesGo_nil
        intro kv hkv
        have hx : kv.2 = 0 := hall kv.2 (List.mem_map.2 ⟨kv, hkv, rfl⟩)
        rw [hx, havg, hvar]
        norm_num
      exact ⟨⟨[], hgo⟩, fun _ => hgo⟩
    · obtain ⟨res, hres⟩ :=
        detectAnomaliesGo_ok_of_ne (seriesMean daily) (seriesVar daily) havg daily
      refine ⟨⟨res, hres⟩, ?_⟩
      intro hsum
      exact absurd (by unfold seriesMean; rw [hsum]; simp) havg
  · rw [if_neg hlen]
    exact ⟨⟨[], rfl⟩, fun _ => rfl⟩

/-- C1 counterexample: a raw bundle whose daily series is
`[8, -1, -1, -1, -1, -1, -1, -1, -1]` has mean 0 yet flags its first point
(`8^2 = 64 > 4 * 8 = 32`), so the deviation divide runs with a zero mean and
processing raises `ZeroDivisionError` — detection is not skipped when the
mean is zero. -/
theorem c1_zero_mean_division_error :
    processData (RawData.mk none none none
      (some (MetricsBlock.mk (some (VisitorsBlock.mk 0 (some
        [("d0", (8:ℚ)), ("d1", -1), ("d2", -1), ("d3", -1), ("d4", -1),
         ("d5", -1), ("d6", -1), ("d7", -1), ("d8", -1)]))) 0 0))
      none none none)
      = Except.error "ZeroDivisionError" ∧
    seriesMean [("d0", (8:ℚ)), ("d1", -1), ("d2", -1), ("d3", -1), ("d4", -1),
      ("d5", -1), ("d6", -1), ("d7", -1), ("d8", -1)] = 0 := by
  constructor
  · decide
  · decide

/-- C1 (amended): for every raw bundle whose daily-visitor values are
nonnegative, processing never raises a division error — the percentage and
trend divisions are guarded in the source, and a zero daily mean forces an
all-zero series with zero variance, so the anomaly scan flags nothing and
the deviation divide is never evaluated with a zero mean (the anomaly list
is then empty).  With negative values admitted this fails, see the
counterexample. -/
theorem processData_none (raw : RawData) (hd : rawDaily raw = none) :
    processData raw = Except.ok (buildProcessed raw []) := by
  unfold processData
  rw [hd]

theorem processData_some (raw : RawData) (daily : List (String × ℚ))
    (hd : rawDaily raw = some daily) :
    processData raw = match detectAnomalies daily with
      | .error e => .error e
      | .ok anomalie => .ok (buildProcessed raw anomalie) := by
  unfold processData
  rw [hd]

theorem c1_processing_guarded_for_nonneg (raw : RawData)
    (hnn : ∀ l, rawDaily raw = some l → ∀ kv ∈ l, 0 ≤ kv.2) :
    (∃ p, processData raw = Except.ok p) ∧
    (∀ l, rawDaily raw = some l → (l.map (fun kv => kv.2)).sum = 0 →
      processData raw = Except.ok (buildProcessed raw [])) := by
  cases hd : rawDaily raw with
  | none =>
    constructor
    · exact ⟨buildProcessed raw [], processData_none raw hd⟩
    · intro l hl
      exact absurd hl (by simp)
  | some daily =>
    obtain ⟨⟨res, hres⟩, hzero⟩ := detectAnomalies_nonneg daily (hnn daily hd)
    constructor
    · refine ⟨buildProcessed raw res, ?_⟩
      rw [processData_some raw daily hd, hres]
    · intro l hl hsum
      injection hl with hEq
      subst hEq
      have h0 := hzero hsum
      rw [processData_some raw daily hd, h0]

theorem c1_processing_guarded_witness :
    ∃ p, processData (RawData.mk none none none
      (some (MetricsBlock.mk (some (VisitorsBlock.mk 100 (some
        [("d1", (100:ℚ)), ("d2", 0), ("d3", 0)]))) 0 0))
      none none none) = Except.ok p :=
  (c1_processing_guarded_for_nonneg _
    (by
      intro l hl
      rw [show rawDaily (RawData.mk none none none
        (some (MetricsBlock.mk (some (VisitorsBlock.mk 100 (some
          [("d1", (100:ℚ)), ("d2", 0), ("d3", 0)]))) 0 0))
        none none none) = some [("d1", (100:ℚ)), ("d2", 0), ("d3", 0)] from rfl] at hl
      injection hl with h
      subst h
      decide)).1

/-- C9 counterexample: for the input `" /a"` (which has no leading slash) the
first application yields `"/a"` and the second `"A"`, so applying the
function twice differs from applying it once and the claimed idempotence
fails. -/
theorem c9_double_application_differs :
    simplifyPagePath (simplifyPagePath " /a".toList)
      ≠ simplifyPagePath " /a".toList := by decide

/-- C9 (amended): `/` maps to `Home Page`; every other path maps to its form
with leading/trailing slashes stripped, `-`/`_` replaced by spaces and each
word capitalized; `/about-us` gives `About Us` and re-simplifying its clean
form returns it unchanged; applying the function twice equals applying it
once for every input whose simplified form neither starts nor ends with a
slash (without that proviso idempotence fails, see the counterexample). -/
theorem c9_page_simplification :
    (simplifyPagePath "/".toList = "Home Page".toList) ∧
    (∀ p : List Char, p ≠ ['/'] →
      simplifyPagePath p
        = joinSpace ((splitWs (replaceDashes (stripSlashes p))).map pyCapitalize)) ∧
    (simplifyPagePath "/about-us".toList = "About Us".toList) ∧
    (simplifyPagePath "About Us".toList = "About Us".toList) ∧
    (∀ p : List Char,
      (∀ c, (simplifyPagePath p).head? = some c → c ≠ '/') →
      (∀ c, (simplifyPagePath p).getLast? = some c → c ≠ '/') →
      simplifyPagePath (simplifyPagePath p) = simplifyPagePath p) :=
  ⟨by decide, simplifyPagePath_of_ne, by decide, by decide, simplifyPagePath_idem⟩

theorem c9_page_simplification_witness :
    simplifyPagePath (simplifyPagePath "/about-us".toList)
      = simplifyPagePath "/about-us".toList :=
  c9_page_simplification.2.2.2.2 "/about-us".toList
    (by
      intro c hc
      rw [show simplifyPagePath "/about-us".toList = "About Us".toList from by decide]
        at hc
      rw [show ("About Us".toList).head? = some 'A' from rfl] at hc
      injection hc with h
      subst h
      decide)
    (by
      intro c hc
      rw [show simplifyPagePath "/about-us".toList = "About Us".toList from by decide]
        at hc
      rw [show ("About Us".toList).getLast? = some 's' from by decide] at hc
      injection hc with h
      subst h
      decide)

/-- C7 counterexample: for the empty raw bundle, the key list of the
processed object the later stages receive differs from the processing
stage's own key list — the coordinator has added `raw_data`
(`webinsights_integration.py` line 137), so the processed mapping is mutated
after its creation. -/
theorem c7_coordinator_adds_raw_data_key :
    workflowProcessedKeys (RawData.mk none none none none none none none)
      ≠ processedKeys (RawData.mk none none none none none none none) ∧
    "raw_data" ∈ workflowProcessedKeys (RawData.mk none none none none none none none) ∧
    "raw_data" ∉ processedKeys (RawData.mk none none none none none none none) :=
  ⟨by decide, by decide, by decide⟩

/-- C7 (amended): after the processing stage builds the processed mapping,
the coordinator mutates it exactly once, appending the single fresh key
`raw_data`; no key of the processing stage is removed or changed and
`raw_data` never collides with one, and the insight and visualization stages
only read the mapping. -/
theorem c7_workflow_keys (raw : RawData) :
    workflowProcessedKeys raw = processedKeys raw ++ ["raw_data"] ∧
    "raw_data" ∉ processedKeys raw ∧
    (∀ k, k ∈ workflowProcessedKeys raw ↔ (k ∈ processedKeys raw ∨ k = "raw_data")) := by
  refine ⟨rfl, ?_, ?_⟩
  · unfold processedKeys
    split_ifs <;> decide
  · intro k
    unfold workflowProcessedKeys
    simp [List.mem_append]

/-- C6 counterexample: on the empty mapping (every optional sub-structure
missing) the practical-advice stage still emits a bullet —
`pages_per_session` defaults to 0, `0 < 2` holds, and the internal-linking
bullet is generated: missing data does trigger a bullet. -/
theorem c6_missing_metrics_triggers_bullet :
    (generateInsights (InsightInput.mk none none none none none none)).consigli_pratici
      = [Advice.internalLinking] := by decide

/-- C6 (amended): a non-mapping top-level input yields the invalid-format
error response, not an exception; for mapping inputs every rule guarded on
the presence of its sub-structure is silently skipped when that
sub-structure is missing; the one exception is the pages-per-session rule,
which compares the defaulted value 0 against the threshold 2, so a missing
metrics block does trigger the internal-linking bullet. -/
theorem c6_missing_sections_skip_rules :
    (insightProcess InsightRequest.notDict = InsightResponse.invalidFormat) ∧
    (∀ p : InsightInput,
      (p.tendenze = none →
        ∀ d q, SummaryClause.trendClause d q ∉ (generateInsights p).sommario) ∧
      (p.fonti_traffico = none →
        (∀ n q, SummaryClause.dominantClause n q ∉ (generateInsights p).sommario) ∧
        (∀ l, KeyPoint.fonti l ∉ (generateInsights p).punti_chiave) ∧
        growthBullets (generateInsights p).opportunita = [] ∧
        Advice.seo ∉ (generateInsights p).consigli_pratici ∧
        Advice.social ∉ (generateInsights p).consigli_pratici) ∧
      (p.dispositivi = none →
        (∀ l, KeyPoint.dispositiviP l ∉ (generateInsights p).punti_chiave) ∧
        (∀ q, Opportunity.mobileGrowth q ∉ (generateInsights p).opportunita) ∧
        (∀ q, Opportunity.mobileOptimize q ∉ (generateInsights p).opportunita)) ∧
      (p.pagine_principali = none →
        (∀ l, KeyPoint.pagineP l ∉ (generateInsights p).punti_chiave) ∧
        (∀ n, Advice.contentPage n ∉ (generateInsights p).consigli_pratici)) ∧
      (p.anomalie = none →
        ∀ l, KeyPoint.anomalieP l ∉ (generateInsights p).punti_chiave) ∧
      (p.metriche = none →
        Advice.internalLinking ∈ (generateInsights p).consigli_pratici)) := by
  refine ⟨rfl, ?_⟩
  intro p
  refine ⟨?_, ?_, ?_, ?_, ?_, ?_⟩
  · intro ht d q
    simp only [generateInsights, ht]
    simp [List.mem_append]
    split <;> simp
  · intro hf
    simp only [generateInsights, hf]
    refine ⟨?_, ?_, ?_, ?_, ?_⟩
    · intro n q
      simp [List.mem_append, dictGet]
      split <;> simp
    · intro l
      simp [List.mem_append, dictGet]
    · simp [growthBullets, List.mem_append, dictGet]
      intro a ha
      split at ha
      · split at ha <;> simp at ha <;> obtain ⟨_, rfl⟩ := ha <;> rfl
      · simp at ha
    · simp [List.mem_append, dictGet]
      split <;> simp
    · simp [List.mem_append, dictGet]
      split <;> simp
  · intro hd
    simp only [generateInsights, hd]
    refine ⟨?_, ?_, ?_⟩
    · intro l
      simp [List.mem_append]
    · intro q
      simp [List.mem_append]
    · intro q
      simp [List.mem_append]
  · intro hp
    simp only [generateInsights, hp]
    refine ⟨?_, ?_⟩
    · intro l
      simp [List.mem_append]
    · intro n
      simp [List.mem_append, pyMinByTime, dictGet]
      constructor
      · split <;> simp
      · split <;> simp
  · intro ha l
    simp only [generateInsights, ha]
    simp [List.mem_append]
  · intro hm
    simp only [generateInsights, hm]
    simp [List.mem_append]

theorem c6_missing_sections_witness :
    SummaryClause.trendClause "crescita" 5 ∉
      (generateInsights (InsightInput.mk none none none none none none)).sommario ∧
    Advice.internalLinking ∈
      (generateInsights (InsightInput.mk none none none none none none)).consigli_pratici ∧
    insightProcess InsightRequest.notDict = InsightResponse.invalidFormat := by
  have h := c6_missing_sections_skip_rules
  exact ⟨(h.2 (InsightInput.mk none none none none none none)).1 rfl "crescita" 5,
    (h.2 (InsightInput.mk none none none none none none)).2.2.2.2.2 rfl, h.1⟩

theorem mem_insDescBySnd (x a : String × ℚ) :
    ∀ l : List (String × ℚ), a ∈ insDescBySnd x l ↔ a = x ∨ a ∈ l := by
  intro l
  induction l with
  | nil => simp [insDescBySnd]
  | cons y ys ih =>
    unfold insDescBySnd
    split_ifs with h
    · simp [List.mem_cons]
    · simp only [List.mem_cons, ih]
      tauto

theorem mem_sortDescBySnd (a : String × ℚ) :
    ∀ l : List (String × ℚ), a ∈ sortDescBySnd l ↔ a ∈ l := by
  intro l
  induction l with
  | nil => simp [sortDescBySnd]
  | cons y ys ih =>
    unfold sortDescBySnd
    rw [mem_insDescBySnd]
    simp [ih]

theorem dictSet_of_not_mem {α : Type} (l : List (String × α)) (k : String) (v : α)
    (h : k ∉ l.map (fun kv => kv.1)) : dictSet l k v = l ++ [(k, v)] := by
  unfold dictSet
  rw [if_neg]
  intro hc
  rw [List.any_eq_true] at hc
  obtain ⟨kv, hkv, hk⟩ := hc
  exact h (List.mem_map.2 ⟨kv, hkv, by simpa using hk⟩)

theorem dictSet_map_fst {α : Type} (l : List (String × α)) (k : String) (v : α) :
    (dictSet l k v).map (fun kv => kv.1)
      = if k ∈ l.map (fun kv => kv.1)
        then l.map (fun kv => kv.1)
        else l.map (fun kv => kv.1) ++ [k] := by
  by_cases h : k ∈ l.map (fun kv => kv.1)
  · rw [if_pos h]
    unfold dictSet
    rw [if_pos]
    · rw [List.map_map]
      refine List.map_congr_left (fun kv _ => ?_)
      show (if kv.1 = k then (k, v) else kv).1 = kv.1
      split_ifs with hk
      · rw [hk]
      · rfl
    · rw [List.any_eq_true]
      obtain ⟨kv, hkv, hk⟩ := List.mem_map.1 h
      exact ⟨kv, hkv, by simpa using hk⟩
  · rw [if_neg h, dictSet_of_not_mem l k v h, List.map_append]
    rfl

theorem find?_eq_none_of_keys {α : Type} (l : List (String × α)) (k : String)
    (h : k ∉ l.map (fun kv => kv.1)) :
    l.find? (fun kv => kv.1 = k) = none := by
  rw [List.find?_eq_none]
  intro kv hkv
  simp only [decide_eq_true_eq]
  intro hk
  exact h (List.mem_map.2 ⟨kv, hkv, hk⟩)

theorem find?_map_update {α : Type} (k : String) (v : α) :
    ∀ l : List (String × α), k ∈ l.map (fun kv => kv.1) →
    (l.map (fun kv => if kv.1 = k then (k, v) else kv)).find?
      (fun kv => kv.1 = k) = some (k, v) := by
  intro l
  induction l with
  | nil => intro h; simp at h
  | cons kv rest ih =>
    intro h
    simp only [List.map_cons, List.find?_cons]
    by_cases hk : kv.1 = k
    · rw [if_pos hk]
      simp
    · rw [if_neg hk]
      rw [show (decide (kv.1 = k)) = false from by simpa using hk]
      apply ih
      rcases List.mem_map.1 h with ⟨a, ha, hae⟩
      rcases List.mem_cons.1 ha with h0 | h0
      · exact absurd (h0 ▸ hae) hk
      · exact List.mem_map.2 ⟨a, h0, hae⟩

theorem dictGet_dictSet_self {α : Type} (l : List (String × α)) (k : String) (v : α) :
    dictGet (dictSet l k v) k = some v := by
  by_cases h : k ∈ l.map (fun kv => kv.1)
  · unfold dictGet dictSet
    rw [if_pos (by
      rw [List.any_eq_true]
      obtain ⟨kv, hkv, hk⟩ := List.mem_map.1 h
      exact ⟨kv, hkv, by simpa using hk⟩)]
    rw [find?_map_update k v l h]
    rfl
  · rw [dictSet_of_not_mem l k v h]
    unfold dictGet
    rw [List.find?_append, find?_eq_none_of_keys l k h]
    simp

theorem filter_ne_map_update {α : Type} (k : String) (v : α) :
    ∀ l : List (String × α),
    (l.map (fun kv => if kv.1 = k then (k, v) else kv)).filter
        (fun kv => kv.1 ≠ k)
      = l.filter (fun kv => kv.1 ≠ k) := by
  intro l
  induction l with
  | nil => rfl
  | cons kv rest ih =>
    simp only [List.map_cons, List.filter_cons]
    by_cases hk : kv.1 = k
    · rw [if_pos hk]
      simpa [hk] using ih
    · rw [if_neg hk]
      simpa [hk] using ih

theorem dictSet_filter_ne {α : Type} (l : List (String × α)) (k : String) (v : α) :
    (dictSet l k v).filter (fun kv => kv.1 ≠ k)
      = l.filter (fun kv => kv.1 ≠ k) := by
  by_cases h : k ∈ l.map (fun kv => kv.1)
  · unfold dictSet
    rw [if_pos (by
      rw [List.any_eq_true]
      obtain ⟨kv, hkv, hk⟩ := List.mem_map.1 h
      exact ⟨kv, hkv, by simpa using hk⟩)]
    exact filter_ne_map_update k v l
  · rw [dictSet_of_not_mem l k v h, List.filter_append]
    simp

theorem map_fst_filter_ne {α : Type} (k : String) :
    ∀ l : List (String × α),
    (l.filter (fun kv => kv.1 ≠ k)).map (fun kv => kv.1)
      = (l.map (fun kv => kv.1)).filter (fun s => s ≠ k) := by
  intro l
  induction l with
  | nil => rfl
  | cons kv rest ih =>
    simp only [List.filter_cons, List.map_cons]
    by_cases hk : kv.1 = k
    · simpa [hk] using ih
    · simpa [hk] using ih

theorem nodup_fst_unique {α : Type} : ∀ {l : List (String × α)},
    (l.map (fun kv => kv.1)).Nodup → ∀ {a b : String × α},
    a ∈ l → b ∈ l → a.1 = b.1 → a = b := by
  intro l
  induction l with
  | nil => intro _ a b ha; simp at ha
  | cons x xs ih =>
    intro h a b ha hb hab
    rw [List.map_cons, List.nodup_cons] at h
    rcases List.mem_cons.1 ha with h1 | h1 <;> rcases List.mem_cons.1 hb with h2 | h2
    · rw [h1, h2]
    · exfalso
      exact h.1 (List.mem_map.2 ⟨b, h2, (h1 ▸ hab).symm⟩)
    · exfalso
      exact h.1 (List.mem_map.2 ⟨a, h1, h2 ▸ hab⟩)
    · exact ih h.2 h1 h2 hab

theorem fontiTraffico_eq_dictSet (sources : List (String × ℚ)) (m : String × ℚ)
    (hm : pyMaxBySnd sources = some m) :
    fontiTraffico sources
      = dictSet ((normalizeShares sources).map
          (fun kvp => (kvp.1, FonteVal.entry kvp.2.1 kvp.2.2))) "principale"
          (FonteVal.principaleEntry m.1
            (if 0 < totalOf sources then round2 ((m.2 / totalOf sources) * 100) else 0)) := by
  unfold fontiTraffico totalOf
  rw [hm]

theorem base_map_fst (sources : List (String × ℚ)) :
    (((normalizeShares sources).map
      (fun kvp => (kvp.1, FonteVal.entry kvp.2.1 kvp.2.2))).map (fun kv => kv.1))
      = sources.map (fun kv => kv.1) := by
  unfold normalizeShares
  rw [List.map_map, List.map_map]
  rfl

theorem growthBullets_eq (p : InsightInput) (fonti : List (String × FonteVal))
    (hf : p.fonti_traffico = some fonti) :
    growthBullets (generateInsights p).opportunita
      = (fonti.filter (fun kv => kv.1 ≠ "principale" ∧ kv.2.percent < 15)).map
          (fun kv => Opportunity.growthPotential (displayName kv.1) kv.2.percent) := by
  simp only [generateInsights, hf, Option.getD_some]
  unfold growthBullets
  rw [List.filter_append]
  by_cases hfe : fonti = []
  · rw [if_pos hfe, hfe]
    simp only [List.filter_nil, List.nil_append]
    split
    · split_ifs <;> rfl
    · rfl
  · rw [if_neg hfe]
    rw [List.map_map, List.filter_map]
    rw [show ((fun o => match o with
        | Opportunity.growthPotential _ _ => true
        | _ => false) ∘ (fun sp : String × ℚ => Opportunity.growthPotential sp.1 sp.2)
          ∘ fun kv : String × FonteVal => (displayName kv.1, kv.2.percent))
        = fun _ => true from funext (fun kv => rfl)]
    rw [List.filter_true]
    rw [show ((fun sp : String × ℚ => Opportunity.growthPotential sp.1 sp.2)
          ∘ fun kv : String × FonteVal => (displayName kv.1, kv.2.percent))
        = fun kv : String × FonteVal =>
            Opportunity.growthPotential (displayName kv.1) kv.2.percent
        from funext (fun kv => rfl)]
    rw [List.append_right_eq_self]
    split
    · split_ifs <;> rfl
    · rfl

/-- C5 counterexample: with eight equal sources of 12.5% each, the dominant
source `s0` also has share below 15% and its entry (excluded from the low
list only when literally named `principale`) does generate a
growth-potential bullet, contradicting "the dominant source never generates
such a bullet". -/
theorem c5_dominant_source_gets_bullet :
    pyMaxBySnd [("s0", (1:ℚ)), ("s1", 1), ("s2", 1), ("s3", 1),
        ("s4", 1), ("s5", 1), ("s6", 1), ("s7", 1)] = some ("s0", 1) ∧
    Opportunity.growthPotential (displayName "s0") (25/2) ∈
      (generateInsights (InsightInput.mk none none
        (some (fontiTraffico [("s0", (1:ℚ)), ("s1", 1), ("s2", 1), ("s3", 1),
          ("s4", 1), ("s5", 1), ("s6", 1), ("s7", 1)])) none none none)).opportunita :=
  ⟨by decide, by decide⟩

/-- C5 (amended): the growth-potential bullets are exactly the entries of
the processed traffic mapping other than the `principale` metadata key whose
share is below 15%, one bullet per entry, in mapping order; the dominant
source is not excluded — over a processed mapping built from a non-clashing
source dict, the dominant source's key generates a bullet exactly when its
own rounded share is below 15% (so it generates none when its share is at
least 15%). -/
theorem c5_low_share_bullets (p : InsightInput) (fonti : List (String × FonteVal))
    (hf : p.fonti_traffico = some fonti) :
    (growthBullets (generateInsights p).opportunita
      = (fonti.filter (fun kv => kv.1 ≠ "principale" ∧ kv.2.percent < 15)).map
          (fun kv => Opportunity.growthPotential (displayName kv.1) kv.2.percent)) ∧
    (∀ (sources : List (String × ℚ)) (m : String × ℚ),
      fonti = fontiTraffico sources →
      pyMaxBySnd sources = some m →
      (sources.map (fun kv => kv.1)).Nodup →
      "principale" ∉ sources.map (fun kv => kv.1) →
      (m.1 ∈ (fonti.filter (fun kv => kv.1 ≠ "principale" ∧ kv.2.percent < 15)).map
          (fun kv => kv.1)
        ↔ (if 0 < totalOf sources then round2 ((m.2 / totalOf sources) * 100) else 0)
            < 15)) := by
  refine ⟨growthBullets_eq p fonti hf, ?_⟩
  intro sources m hfe hm hnd hpr
  subst hfe
  have hbase := fontiTraffico_eq_dictSet sources m hm
  have hmem : m ∈ sources := by
    obtain ⟨l₁, m2, l₂, hsplit, hm2, _, _⟩ := pyMaxBySnd_spec sources
      (by rintro rfl; simp [pyMaxBySnd] at hm)
    have hmm : m2 = m := Option.some.inj (hm2.symm.trans hm)
    rw [hsplit, hmm]
    exact List.mem_append.2 (Or.inr (List.mem_cons_self _ _))
  have hbase_keys : (((normalizeShares sources).map
      (fun kvp => (kvp.1, FonteVal.entry kvp.2.1 kvp.2.2))).map (fun kv => kv.1))
      = sources.map (fun kv => kv.1) := base_map_fst sources
  have hprb : "principale" ∉ ((normalizeShares sources).map
      (fun kvp => (kvp.1, FonteVal.entry kvp.2.1 kvp.2.2))).map (fun kv => kv.1) := by
    rw [hbase_keys]; exact hpr
  have happend : fontiTraffico sources
      = ((normalizeShares sources).map
          (fun kvp => (kvp.1, FonteVal.entry kvp.2.1 kvp.2.2)))
        ++ [("principale", FonteVal.principaleEntry m.1
            (if 0 < totalOf sources then round2 ((m.2 / totalOf sources) * 100) else 0))] := by
    rw [hbase, dictSet_of_not_mem _ _ _ hprb]
  have hmne : m.1 ≠ "principale" := by
    intro hc
    exact hpr (hc ▸ List.mem_map.2 ⟨m, hmem, rfl⟩)
  have hment : (m.1, FonteVal.entry m.2
      (if 0 < totalOf sources then round2 ((m.2 / totalOf sources) * 100) else 0))
      ∈ (normalizeShares sources).map
          (fun kvp => (kvp.1, FonteVal.entry kvp.2.1 kvp.2.2)) :=
    List.mem_map.2 ⟨(m.1, m.2,
      (if 0 < totalOf sources then round2 ((m.2 / totalOf sources) * 100) else 0)),
      List.mem_map.2 ⟨m, hmem, rfl⟩, rfl⟩
  constructor
  · intro hin
    obtain ⟨kv, hkv, hkv1⟩ := List.mem_map.1 hin
    have hkv_mem := List.mem_filter.1 hkv
    have hcond := hkv_mem.2
    simp only [decide_eq_true_eq] at hcond
    have hkv_in_base : kv ∈ (normalizeShares sources).map
        (fun kvp => (kvp.1, FonteVal.entry kvp.2.1 kvp.2.2)) := by
      have := hkv_mem.1
      rw [happend] at this
      rcases List.mem_append.1 this with h | h
      · exact h
      · exfalso
        rcases List.mem_cons.1 h with h0 | h0
        · exact hcond.1 (by rw [h0])
        · simp at h0
    have hkv_eq : kv = (m.1, FonteVal.entry m.2
        (if 0 < totalOf sources then round2 ((m.2 / totalOf sources) * 100) else 0)) :=
      nodup_fst_unique (hbase_keys ▸ hnd) hkv_in_base hment (by rw [hkv1])
    have := hcond.2
    rw [hkv_eq] at this
    exact this
  · intro hlt
    refine List.mem_map.2 ⟨(m.1, FonteVal.entry m.2
      (if 0 < totalOf sources then round2 ((m.2 / totalOf sources) * 100) else 0)),
      List.mem_filter.2 ⟨?_, ?_⟩, rfl⟩
    · rw [happend]
      exact List.mem_append.2 (Or.inl hment)
    · simp only [decide_eq_true_eq]
      exact ⟨hmne, hlt⟩

theorem c5_low_share_bullets_witness :
    growthBullets (generateInsights (InsightInput.mk none none
        (some (fontiTraffico [("s0", (1:ℚ)), ("s1", 1), ("s2", 1), ("s3", 1),
          ("s4", 1), ("s5", 1), ("s6", 1), ("s7", 1)])) none none none)).opportunita
      = ((fontiTraffico [("s0", (1:ℚ)), ("s1", 1), ("s2", 1), ("s3", 1),
          ("s4", 1), ("s5", 1), ("s6", 1), ("s7", 1)]).filter
            (fun kv => kv.1 ≠ "principale" ∧ kv.2.percent < 15)).map
          (fun kv => Opportunity.growthPotential (displayName kv.1) kv.2.percent) :=
  (c5_low_share_bullets _ _ rfl).1

/-- C10: the traffic-share mapping reserves the key `principale` for the
dominant source's name and rounded share, stored inside the same dict as the
per-source entries; the key list is the input key list plus `principale`
(appended when fresh, overwriting an input source of that literal name), so
a non-clashing mapping gains exactly one entry; and the source ranking, the
growth-potential bullets and the traffic chart all drop the `principale` key
before iterating, leaving exactly the input sources other than any literally
named `principale`. -/
theorem c10_principale_reserved_key (sources : List (String × ℚ))
    (hne : sources ≠ []) :
    (∀ m, pyMaxBySnd sources = some m →
      dictGet (fontiTraffico sources) "principale"
        = some (FonteVal.principaleEntry m.1
            (if 0 < totalOf sources then round2 ((m.2 / totalOf sources) * 100) else 0))) ∧
    ((fontiTraffico sources).map (fun kv => kv.1)
      = if "principale" ∈ sources.map (fun kv => kv.1)
        then sources.map (fun kv => kv.1)
        else sources.map (fun kv => kv.1) ++ ["principale"]) ∧
    ("principale" ∉ sources.map (fun kv => kv.1) →
      (fontiTraffico sources).length = sources.length + 1) ∧
    (((fontiTraffico sources).filter (fun kv => kv.1 ≠ "principale")).map
        (fun kv => kv.1)
      = (sources.map (fun kv => kv.1)).filter (fun s => s ≠ "principale")) ∧
    (∀ p : InsightInput, p.fonti_traffico = some (fontiTraffico sources) →
      ∀ l, KeyPoint.fonti l ∈ (generateInsights p).punti_chiave →
        ∀ kv ∈ l, kv.1 ≠ "principale") ∧
    (∀ ch, chartTrafficSources (fontiTraffico sources) = some ch →
      ch.labels = (((fontiTraffico sources).filter
        (fun kv => kv.1 ≠ "principale")).map (fun kv => displayName kv.1))) := by
  obtain ⟨m, hm⟩ : ∃ m, pyMaxBySnd sources = some m := by
    obtain ⟨l₁, m2, l₂, _, hm2, _, _⟩ := pyMaxBySnd_spec sources hne
    exact ⟨m2, hm2⟩
  have hbase := fontiTraffico_eq_dictSet sources m hm
  refine ⟨?_, ?_, ?_, ?_, ?_, ?_⟩
  · intro m0 hm0
    have : m0 = m := Option.some.inj (hm0.symm.trans hm)
    subst this
    rw [hbase]
    exact dictGet_dictSet_self _ _ _
  · rw [hbase, dictSet_map_fst, base_map_fst]
  · intro hpr
    have hkeys : (fontiTraffico sources).map (fun kv => kv.1)
        = sources.map (fun kv => kv.1) ++ ["principale"] := by
      rw [hbase, dictSet_map_fst, base_map_fst, if_neg hpr]
    have hlen : ((fontiTraffico sources).map (fun kv => kv.1)).length
        = sources.length + 1 := by
      rw [hkeys, List.length_append, List.length_map]
      rfl
    rw [List.length_map] at hlen
    exact hlen
  · rw [hbase, dictSet_filter_ne, map_fst_filter_ne, base_map_fst]
  · intro p hf l hl kv hkv
    simp only [generateInsights, hf, Option.getD_some] at hl
    simp only [List.mem_append] at hl
    rcases hl with ((hl | hl) | hl) | hl
    · split at hl
      · simp at hl
      · split at hl
        · simp at hl
        · simp at hl
          subst hl
          rw [mem_sortDescBySnd] at hkv
          obtain ⟨kv0, hkv0, rfl⟩ := List.mem_map.1 hkv
          have := (List.mem_filter.1 hkv0).2
          simpa using this
    · split at hl <;> simp at hl
    · split at hl <;> simp at hl
    · split at hl <;> simp at hl
  · intro ch hch
    unfold chartTrafficSources at hch
    simp only [] at hch
    split_ifs at hch with h
    have h2 := Option.some.inj hch
    subst h2
    rfl

theorem c10_principale_reserved_key_witness :
    dictGet (fontiTraffico [("direct", (50:ℚ)), ("organic", 50)]) "principale"
      = some (FonteVal.principaleEntry "direct"
          (if 0 < totalOf [("direct", (50:ℚ)), ("organic", 50)]
           then round2 ((50 / totalOf [("direct", (50:ℚ)), ("organic", 50)]) * 100)
           else 0)) ∧
    (fontiTraffico [("direct", (50:ℚ)), ("organic", 50)]).length = 3 := by
  have h := c10_principale_reserved_key [("direct", (50:ℚ)), ("organic", 50)]
    (by decide)
  refine ⟨h.1 ("direct", 50) (by decide), ?_⟩
  rw [h.2.2.1 (by decide)]
  rfl

end WebInsights
